import Mathlib

/-!
Verification of `accumulo/contrib/komorebidb/structs.py`: the component/view
data model, the revision-to-mutation compiler (`Revision`), the key-set
manifest codec, and the manifest-driven deletion compiler (`RevisionDelete`).

All `str`/`bytes` field values are modelled as byte sequences (`List Nat`),
matching the normalization the mutation primitive performs on its inputs.
The mutation primitive (`accumulo.Mutation`) and the key-set codec
(`komorebi_pb2.Key` / `komorebi_pb2.KeySet` serialization) are outside the
module's source and are modelled from the specification, as marked on the
corresponding definitions.
-/

namespace Komorebi

/-- Byte sequences: the byte-string values flowing through the module. -/
abbrev ByteSeq := List Nat

/-- Modelled from the spec: the key-value mutation primitive
(`accumulo.Mutation`), missing from the provided sources.  Spec section 6:
constructed as `(row, family, qualifier, visibility, timestamp, value)` or
`(row, family, qualifier, visibility, timestamp, delete=true)`; the core treats
it opaquely after construction, and its `row_bytes` / `cf_bytes` / `cq_bytes` /
`visibility_bytes` accessors are the normalized byte strings, which in this
byte-level model are the stored fields themselves. -/
structure Mutation where
  row : ByteSeq
  cf : ByteSeq
  cq : ByteSeq
  visibility : ByteSeq
  timestamp_ms : Int
  value : ByteSeq
  delete : Bool
deriving DecidableEq

/-- Modelled from the spec: the manifest key descriptor (`komorebi_pb2.Key`,
missing from the provided sources).  Spec section 3: `(row, column_family,
column_qualifier, visibility)`; it carries no value and no timestamp. -/
structure PbKey where
  row : ByteSeq
  cf : ByteSeq
  cq : ByteSeq
  visibility : ByteSeq
deriving DecidableEq

/-- Little-endian base-128 varint encoding, with structural fuel; with
`fuel ≥ n` the fuel never runs out (and the fuel-0 fallback agrees anyway,
since `fuel = 0` and `n ≤ fuel` force `n = 0`). -/
def encodeVarintAux : Nat → Nat → ByteSeq
  | 0, n => [n % 128]
  | fuel + 1, n => if n < 128 then [n] else (n % 128 + 128) :: encodeVarintAux fuel (n / 128)

/-- Little-endian base-128 varint encoding of a natural number. -/
def encodeVarint (n : Nat) : ByteSeq := encodeVarintAux n n

/-- Varint decoding: returns the value and the remaining bytes. -/
def decodeVarint : ByteSeq → Option (Nat × ByteSeq)
  | [] => none
  | b :: rest =>
    if b < 128 then some (b, rest)
    else
      match decodeVarint rest with
      | some (n, rest1) => some (b - 128 + 128 * n, rest1)
      | none => none

/-- Encode one length-delimited field: tag byte, varint length, payload. -/
def encodeField (tag : Nat) (payload : ByteSeq) : ByteSeq :=
  tag :: (encodeVarint payload.length ++ payload)

/-- Parse one length-delimited field with the given tag byte: check the tag,
read a varint length, split off that many payload bytes. -/
def parseField (tag : Nat) : ByteSeq → Option (ByteSeq × ByteSeq)
  | [] => none
  | b :: rest =>
    if b = tag then
      match decodeVarint rest with
      | some (len, rest1) =>
        if len ≤ rest1.length then some (rest1.take len, rest1.drop len) else none
      | none => none
    else none

/-- Serialize a `Key` message: its four byte fields as length-delimited
fields 1..4 (tag bytes 10, 18, 26, 34), in schema order. -/
def encodePbKey (k : PbKey) : ByteSeq :=
  encodeField 10 k.row ++ encodeField 18 k.cf ++ encodeField 26 k.cq ++
    encodeField 34 k.visibility

/-- Parse a serialized `Key` message: the four length-delimited fields in
schema order, requiring the payload to be fully consumed. -/
def parsePbKey (input : ByteSeq) : Option PbKey :=
  match parseField 10 input with
  | none => none
  | some (row, r1) =>
    match parseField 18 r1 with
    | none => none
    | some (cf, r2) =>
      match parseField 26 r2 with
      | none => none
      | some (cq, r3) =>
        match parseField 34 r3 with
        | none => none
        | some (vis, r4) => if r4 = [] then some (PbKey.mk row cf cq vis) else none

/-- Modelled from the spec: `komorebi_pb2.KeySet(keys=...).SerializeToString()`,
the encode half of the key-set manifest codec (spec section 6) — each key as one
length-delimited field of the repeated `keys` field (tag byte 10), in order. -/
def encodeKeySet : List PbKey → ByteSeq
  | [] => []
  | k :: ks => encodeField 10 (encodePbKey k) ++ encodeKeySet ks

/-- Decode a serialized `KeySet`: repeatedly parse one key field until the
input is exhausted.  Structural fuel bounds the number of keys; one byte of
input per key is always consumed, so `fuel = input.length` suffices. -/
def decodeKeySetFuel : Nat → ByteSeq → Option (List PbKey)
  | _, [] => some []
  | 0, _ :: _ => none
  | fuel + 1, b :: rest0 =>
    match parseField 10 (b :: rest0) with
    | none => none
    | some (payload, rest) =>
      match parsePbKey payload with
      | none => none
      | some k =>
        match decodeKeySetFuel fuel rest with
        | none => none
        | some ks => some (k :: ks)

/-- Modelled from the spec: `deserialize_pb_encoded_key_set` — build a `KeySet`
and `ParseFromString` the blob (the decode half of the codec, spec section 6),
yielding the ordered key descriptors of the repeated `keys` field.  `none` is
the structurally-ill-formed case: the `MalformedManifest` condition of spec
section 7, a raised decode error in the source. -/
def deserialize_pb_encoded_key_set (blob : ByteSeq) : Option (List PbKey) :=
  decodeKeySetFuel blob.length blob

/-- The reserved metadata family sentinel, the bytes of `'_meta\x00'`
(`METADATA_COMPONENT_PREFIX` and `METADATA_COMPONENT_PREFIX_BYTES` in the
source; in this byte-level model the text and byte forms coincide). -/
def metadataComponentPrefixBytes : ByteSeq := [95, 109, 101, 116, 97, 0]

/-- A view: one alternate index entry pointing at a component (class `View`). -/
structure View where
  lookup_term : ByteSeq
  qualifier : ByteSeq
  visibility : ByteSeq
  family : ByteSeq
  value : ByteSeq
deriving DecidableEq

/-- `View.__init__`: a `None` qualifier defaults to a fresh random token
(`uuid4().hex`), modelled by the explicitly passed `uuid` argument. -/
def View.init (lookup_term : ByteSeq) (qualifier : Option ByteSeq)
    (visibility : ByteSeq) (value : ByteSeq) (family : ByteSeq)
    (uuid : ByteSeq) : View :=
  { lookup_term := lookup_term, qualifier := qualifier.getD uuid,
    visibility := visibility, family := family, value := value }

/-- `View.mutation`: the mutation representing the view at the given
revision timestamp. -/
def View.mutation (v : View) (timestamp_ms : Int) : Mutation :=
  Mutation.mk v.lookup_term v.family v.qualifier v.visibility timestamp_ms v.value false

/-- A component: one content-bearing unit of a document (class `Component`). -/
structure Component where
  doc_id : ByteSeq
  component_type : ByteSeq
  qualifier : ByteSeq
  visibility : ByteSeq
  content : ByteSeq
  views : List View
deriving DecidableEq

/-- `Component.__init__`: a `None` qualifier defaults to a fresh random token
(the `uuid` argument); a `None` views argument defaults to the empty list. -/
def Component.init (doc_id component_type : ByteSeq) (qualifier : Option ByteSeq)
    (visibility content : ByteSeq) (views : Option (List View))
    (uuid : ByteSeq) : Component :=
  { doc_id := doc_id, component_type := component_type,
    qualifier := qualifier.getD uuid, visibility := visibility,
    content := content, views := views.getD [] }

/-- A revision: an immutable write batch (class `Revision`); the default
"current time" timestamp is environment input and is passed explicitly. -/
structure Revision where
  components : List Component
  timestamp_ms : Int
deriving DecidableEq

/-- One element of the Python list returned by `Revision.mutations()`.  The
source extends the result with `component_metadata_mutation`, which is a
one-element Python list, as a single element, so the returned list mixes
plain mutations with one nested list per component. -/
inductive MutItem where
  | mut (m : Mutation)
  | nested (ms : List Mutation)
deriving DecidableEq

/-- The `component_mutation` local of `Revision.mutations`: the component-body
write. -/
def componentMutation (c : Component) (ts : Int) : Mutation :=
  Mutation.mk c.doc_id c.component_type c.qualifier c.visibility ts c.content false

/-- The `view_mutations` local of `Revision.mutations`: one write per view. -/
def viewMutations (c : Component) (ts : Int) : List Mutation :=
  c.views.map (fun v =>
    Mutation.mk v.lookup_term v.family v.qualifier v.visibility ts v.value false)

/-- The `view_keys` local of `Revision.mutations` after its `extend`: one key
descriptor per view mutation, then the component key and the
component-metadata key. -/
def viewKeys (c : Component) (ts : Int) : List PbKey :=
  (viewMutations c ts).map (fun m => PbKey.mk m.row m.cf m.cq m.visibility) ++
    [PbKey.mk (componentMutation c ts).row (componentMutation c ts).cf
      (componentMutation c ts).cq (componentMutation c ts).visibility,
     PbKey.mk (componentMutation c ts).row
      (metadataComponentPrefixBytes ++ (componentMutation c ts).cf)
      (componentMutation c ts).cq (componentMutation c ts).visibility]

/-- The single mutation inside the `component_metadata_mutation` local: the
metadata write whose value is the serialized key-set manifest. -/
def metadataMutation (c : Component) (ts : Int) : Mutation :=
  Mutation.mk c.doc_id (metadataComponentPrefixBytes ++ c.component_type)
    c.qualifier c.visibility ts (encodeKeySet (viewKeys c ts)) false

/-- The `component_metadata_mutation` local itself: the source wraps the
metadata mutation in a one-element list. -/
def componentMetadataMutation (c : Component) (ts : Int) : List Mutation :=
  [metadataMutation c ts]

/-- The loop of `Revision.mutations`: each iteration extends the result with
the view mutations, the component mutation, and `component_metadata_mutation`
(the latter appended as one element, hence nested). -/
def revisionLoop (ts : Int) : List Component → List MutItem
  | [] => []
  | c :: cs =>
    ((viewMutations c ts).map MutItem.mut ++
      [MutItem.mut (componentMutation c ts),
       MutItem.nested (componentMetadataMutation c ts)]) ++
      revisionLoop ts cs

/-- `Revision.mutations`. -/
def Revision.mutations (r : Revision) : List MutItem :=
  revisionLoop r.timestamp_ms r.components

/-- A delete revision: an immutable delete batch (class `RevisionDelete`). -/
structure RevisionDelete where
  pb_encoded_key_sets : List ByteSeq
  timestamp_ms : Int
deriving DecidableEq

/-- The `delete_mutations` list as built by the loop of
`RevisionDelete.mutations`: per blob, decode and append one delete marker per
key descriptor.  `none` when decoding one of the blobs raises the
`MalformedManifest` condition, which aborts the whole call. -/
def buildDeleteMutations (ts : Int) : List ByteSeq → Option (List Mutation)
  | [] => some []
  | blob :: rest =>
    match deserialize_pb_encoded_key_set blob with
    | none => none
    | some ks =>
      match buildDeleteMutations ts rest with
      | none => none
      | some ms =>
        some (ks.map (fun k => Mutation.mk k.row k.cf k.cq k.visibility ts [] true) ++ ms)

/-- `RevisionDelete.mutations`: the source builds `delete_mutations` but its
body has no `return` statement, so a successful call returns Python `None`.
The outer `Option` is the raised/aborted case (`none` means the call aborts
with the `MalformedManifest` condition); the inner `Option (List Mutation)` is
the Python return value, which is always `none` (Python `None`) on success. -/
def RevisionDelete.mutations (rd : RevisionDelete) : Option (Option (List Mutation)) :=
  match buildDeleteMutations rd.timestamp_ms rd.pb_encoded_key_sets with
  | none => none
  | some _ => some none

/-- The key descriptor of a mutation, as the spec describes mutation key sets:
its `(row, family, qualifier, visibility)` coordinates. -/
def mutationKey (m : Mutation) : PbKey := PbKey.mk m.row m.cf m.cq m.visibility

/-- The key descriptor the spec assigns to a view entry. -/
def specViewKey (v : View) : PbKey :=
  PbKey.mk v.lookup_term v.family v.qualifier v.visibility

/-- The key descriptor the spec assigns to the component-body entry. -/
def specBodyKey (c : Component) : PbKey :=
  PbKey.mk c.doc_id c.component_type c.qualifier c.visibility

/-- The key descriptor the spec assigns to the component-metadata entry. -/
def specMetaKey (c : Component) : PbKey :=
  PbKey.mk c.doc_id (metadataComponentPrefixBytes ++ c.component_type)
    c.qualifier c.visibility

/-- The set (ordered list) of keys the originating revision writes for one
component: the view keys, then the component-body key, then the metadata
key. -/
def writtenKeys (c : Component) (ts : Int) : List PbKey :=
  (viewMutations c ts).map mutationKey ++
    [mutationKey (componentMutation c ts), mutationKey (metadataMutation c ts)]

/-- The flat per-component mutation sequence the spec's step 6 describes:
view mutations, then the component-body mutation, then the metadata
mutation, with no nesting. -/
def specComponentSequence (c : Component) (ts : Int) : List Mutation :=
  viewMutations c ts ++ [componentMutation c ts] ++ [metadataMutation c ts]

/-- Boolean check that every mutation inside one result item carries the
timestamp `ts` (a nested item is checked elementwise). -/
def MutItem.tsOk (ts : Int) : MutItem → Bool
  | .mut m => m.timestamp_ms == ts
  | .nested ms => ms.all (fun m => m.timestamp_ms == ts)

/-- Constructor arguments of `View.__init__`, with the optional qualifier
explicit. -/
structure ViewArgs where
  lookup_term : ByteSeq
  qualifier : Option ByteSeq
  visibility : ByteSeq
  value : ByteSeq
  family : ByteSeq
deriving DecidableEq

/-- Constructor arguments of `Component.__init__`, with the optional
qualifier and optional views explicit. -/
structure ComponentArgs where
  doc_id : ByteSeq
  component_type : ByteSeq
  qualifier : Option ByteSeq
  visibility : ByteSeq
  content : ByteSeq
  views : Option (List ViewArgs)
deriving DecidableEq

/-- Construct a `View` from its arguments and one random token. -/
def buildView (a : ViewArgs) (uuid : ByteSeq) : View :=
  View.init a.lookup_term a.qualifier a.visibility a.value a.family uuid

/-- Construct the views of one component, drawing one random token per view
from the generator `gen`, starting at index `i`. -/
def buildViewList (gen : Nat → ByteSeq) : Nat → List ViewArgs → List View
  | _, [] => []
  | i, a :: rest => buildView a (gen i) :: buildViewList gen (i + 1) rest

/-- Construct a `Component` from its arguments, one random token for its own
qualifier and a generator of tokens for its views. -/
def buildComponent (a : ComponentArgs) (uuid : ByteSeq) (viewGen : Nat → ByteSeq) :
    Component :=
  Component.init a.doc_id a.component_type a.qualifier a.visibility a.content
    (a.views.map (fun vs => buildViewList viewGen 0 vs)) uuid

/-- Construct a component list, with independent token generators for the
component qualifiers and for each component's view qualifiers. -/
def buildComponentList (gc : Nat → ByteSeq) (gv : Nat → Nat → ByteSeq) :
    Nat → List ComponentArgs → List Component
  | _, [] => []
  | i, a :: rest =>
    buildComponent a (gc i) (gv i) :: buildComponentList gc gv (i + 1) rest

/-- A view argument record carries an explicitly supplied qualifier. -/
def ViewArgs.explicitQualifier (a : ViewArgs) : Bool := a.qualifier.isSome

/-- A component argument record and all its views carry explicitly supplied
qualifiers. -/
def ComponentArgs.explicitQualifiers (a : ComponentArgs) : Bool :=
  a.qualifier.isSome && (a.views.getD []).all ViewArgs.explicitQualifier

/-- A concrete sample view for witnesses. -/
def sampleView : View := View.mk [104, 105] [113, 118] [112] [105, 120] [1, 2]

/-- A concrete sample component with one view, for witnesses. -/
def sampleComponent : Component :=
  Component.mk [100, 49] [116, 120, 116] [113] [118, 105, 115] [7, 8] [sampleView]

/-- A concrete sample component without views, for witnesses. -/
def sampleComponentNoViews : Component :=
  Component.mk [100, 50] [116] [113, 50] [118] [9] []

/-- Concrete sample key descriptors for witnesses. -/
def sampleKeyA : PbKey := PbKey.mk [1] [2] [3] [4]

/-- Concrete sample key descriptors for witnesses. -/
def sampleKeyB : PbKey := PbKey.mk [5] [6] [7] [8]

/-- Concrete sample key descriptors for witnesses. -/
def sampleKeyC : PbKey := PbKey.mk [9] [10] [11] [12]

/-- Concrete sample constructor arguments with explicit qualifiers. -/
def sampleViewArgs : ViewArgs := ViewArgs.mk [104] (some [113]) [118] [5] [102]

/-- Concrete sample constructor arguments with explicit qualifiers. -/
def sampleComponentArgs : ComponentArgs :=
  ComponentArgs.mk [100] [116] (some [99]) [] [3] (some [sampleViewArgs])

theorem decodeVarint_encodeVarintAux :
    ∀ (fuel n : Nat), n ≤ fuel → ∀ rest : ByteSeq,
      decodeVarint (encodeVarintAux fuel n ++ rest) = some (n, rest)
  | 0, n, h, rest => by
    have hn : n = 0 := Nat.le_zero.mp h
    subst hn
    simp [encodeVarintAux, decodeVarint]
  | fuel + 1, n, h, rest => by
    by_cases h128 : n < 128
    · simp [encodeVarintAux, h128, decodeVarint]
    · have hlt : n / 128 < n := Nat.div_lt_self (by omega) (by omega)
      have hdiv : n / 128 ≤ fuel := by omega
      rw [encodeVarintAux, if_neg h128, List.cons_append, decodeVarint,
        if_neg (by omega), decodeVarint_encodeVarintAux fuel (n / 128) hdiv rest]
      simp only [Option.some.injEq, Prod.mk.injEq, eq_self_iff_true, and_true]
      omega

theorem decodeVarint_encodeVarint (n : Nat) (rest : ByteSeq) :
    decodeVarint (encodeVarint n ++ rest) = some (n, rest) :=
  decodeVarint_encodeVarintAux n n le_rfl rest

theorem take_len_append (p rest : ByteSeq) : (p ++ rest).take p.length = p := by
  induction p with
  | nil => simp
  | cons b p ih => simp [ih]

theorem drop_len_append (p rest : ByteSeq) : (p ++ rest).drop p.length = rest := by
  induction p with
  | nil => simp
  | cons b p ih => simp [ih]

theorem parseField_encodeField (tag : Nat) (payload rest : ByteSeq) :
    parseField tag (encodeField tag payload ++ rest) = some (payload, rest) := by
  have h1 : encodeField tag payload ++ rest =
      tag :: (encodeVarint payload.length ++ (payload ++ rest)) := by
    simp [encodeField]
  rw [h1, parseField, if_pos rfl, decodeVarint_encodeVarint]
  simp [take_len_append, drop_len_append]

theorem parsePbKey_encodePbKey (k : PbKey) : parsePbKey (encodePbKey k) = some k := by
  have h34 : parseField 34 (encodeField 34 k.visibility) = some (k.visibility, []) := by
    have := parseField_encodeField 34 k.visibility []
    simpa using this
  rw [parsePbKey, encodePbKey]
  rw [show encodeField 10 k.row ++ encodeField 18 k.cf ++ encodeField 26 k.cq ++
        encodeField 34 k.visibility =
      encodeField 10 k.row ++ (encodeField 18 k.cf ++ (encodeField 26 k.cq ++
        encodeField 34 k.visibility)) by simp]
  simp only [parseField_encodeField, h34]
  simp

theorem decodeKeySetFuel_cons (fuel : Nat) (p q : ByteSeq) :
    decodeKeySetFuel (fuel + 1) (encodeField 10 p ++ q) =
      match parsePbKey p with
      | none => none
      | some k =>
        match decodeKeySetFuel fuel q with
        | none => none
        | some ks => some (k :: ks) := by
  show decodeKeySetFuel (fuel + 1) (10 :: (encodeVarint p.length ++ p ++ q)) = _
  rw [decodeKeySetFuel]
  rw [show (10 : Nat) :: (encodeVarint p.length ++ p ++ q) = encodeField 10 p ++ q by
    simp [encodeField]]
  rw [parseField_encodeField]

theorem encodeKeySet_cons (k : PbKey) (ks : List PbKey) :
    encodeKeySet (k :: ks) = encodeField 10 (encodePbKey k) ++ encodeKeySet ks := rfl

theorem decodeKeySetFuel_encodeKeySet :
    ∀ (ks : List PbKey) (fuel : Nat), (encodeKeySet ks).length ≤ fuel →
      decodeKeySetFuel fuel (encodeKeySet ks) = some ks
  | [], fuel, _ => by cases fuel <;> rfl
  | k :: ks, fuel, h => by
    cases fuel with
    | zero =>
      exfalso
      rw [encodeKeySet_cons] at h
      simp [encodeField] at h
    | succ fuel =>
      rw [encodeKeySet_cons] at h ⊢
      rw [decodeKeySetFuel_cons, parsePbKey_encodePbKey]
      have hrest : (encodeKeySet ks).length ≤ fuel := by
        simp [encodeField] at h
        omega
      rw [decodeKeySetFuel_encodeKeySet ks fuel hrest]

theorem deserialize_encodeKeySet (ks : List PbKey) :
    deserialize_pb_encoded_key_set (encodeKeySet ks) = some ks :=
  decodeKeySetFuel_encodeKeySet ks (encodeKeySet ks).length le_rfl

theorem viewKeys_eq_spec (c : Component) (ts : Int) :
    viewKeys c ts = c.views.map specViewKey ++ [specBodyKey c, specMetaKey c] := by
  simp [viewKeys, viewMutations, specViewKey, specBodyKey, specMetaKey,
    componentMutation, List.map_map, Function.comp]

theorem writtenKeys_eq_viewKeys (c : Component) (ts : Int) :
    writtenKeys c ts = viewKeys c ts := by
  simp [writtenKeys, viewKeys, mutationKey, metadataMutation, componentMutation]

theorem nested_metadata_mem (ts : Int) (cs : List Component) (c : Component)
    (h : c ∈ cs) :
    MutItem.nested (componentMetadataMutation c ts) ∈ revisionLoop ts cs := by
  induction cs with
  | nil => cases h
  | cons c0 cs ih =>
    rcases List.mem_cons.mp h with rfl | h0
    · simp [revisionLoop]
    · simp [revisionLoop, ih h0]

theorem revisionLoop_tsOk (ts : Int) (cs : List Component) :
    ∀ item ∈ revisionLoop ts cs, MutItem.tsOk ts item = true := by
  induction cs with
  | nil => intro item h; simp [revisionLoop] at h
  | cons c cs ih =>
    intro item h
    rw [revisionLoop, List.mem_append, List.mem_append] at h
    rcases h with (hmap | hpair) | hrec
    · rw [List.mem_map] at hmap
      obtain ⟨m, hm, rfl⟩ := hmap
      rw [viewMutations, List.mem_map] at hm
      obtain ⟨v, hv, rfl⟩ := hm
      simp [MutItem.tsOk]
    · simp only [List.mem_cons, List.not_mem_nil, or_false] at hpair
      rcases hpair with rfl | rfl
      · simp [MutItem.tsOk, componentMutation]
      · simp [MutItem.tsOk, componentMetadataMutation, metadataMutation]
    · exact ih item hrec

theorem buildView_indep (a : ViewArgs) (h : a.qualifier.isSome = true)
    (u1 u2 : ByteSeq) : buildView a u1 = buildView a u2 := by
  obtain ⟨q, hq⟩ := Option.isSome_iff_exists.mp h
  simp [buildView, View.init, hq]

theorem buildViewList_indep (vs : List ViewArgs)
    (h : vs.all ViewArgs.explicitQualifier = true)
    (g1 g2 : Nat → ByteSeq) (i j : Nat) :
    buildViewList g1 i vs = buildViewList g2 j vs := by
  induction vs generalizing i j with
  | nil => rfl
  | cons a rest ih =>
    simp only [List.all_cons, Bool.and_eq_true] at h
    simp [buildViewList, buildView_indep a h.1 (g1 i) (g2 j), ih h.2 (i + 1) (j + 1)]

theorem buildComponent_indep (a : ComponentArgs) (h : a.explicitQualifiers = true)
    (u1 u2 : ByteSeq) (g1 g2 : Nat → ByteSeq) :
    buildComponent a u1 g1 = buildComponent a u2 g2 := by
  simp only [ComponentArgs.explicitQualifiers, Bool.and_eq_true] at h
  obtain ⟨q, hq⟩ := Option.isSome_iff_exists.mp h.1
  cases hv : a.views with
  | none => simp [buildComponent, Component.init, hq, hv]
  | some vs =>
    have hall : vs.all ViewArgs.explicitQualifier = true := by
      have := h.2
      rw [hv] at this
      simpa using this
    simp [buildComponent, Component.init, hq, hv,
      buildViewList_indep vs hall g1 g2 0 0]

theorem buildComponentList_indep (cargs : List ComponentArgs)
    (h : ∀ a ∈ cargs, a.explicitQualifiers = true)
    (g1c g2c : Nat → ByteSeq) (g1v g2v : Nat → Nat → ByteSeq) (i j : Nat) :
    buildComponentList g1c g1v i cargs = buildComponentList g2c g2v j cargs := by
  induction cargs generalizing i j with
  | nil => rfl
  | cons a rest ih =>
    simp [buildComponentList,
      buildComponent_indep a (h a (by simp)) (g1c i) (g2c j) (g1v i) (g2v j),
      ih (fun x hx => h x (by simp [hx])) (i + 1) (j + 1)]

theorem buildDeleteMutations_none (ts : Int) (blobs : List ByteSeq)
    (blob : ByteSeq) (hmem : blob ∈ blobs)
    (hbad : deserialize_pb_encoded_key_set blob = none) :
    buildDeleteMutations ts blobs = none := by
  induction blobs with
  | nil => cases hmem
  | cons b rest ih =>
    rcases List.mem_cons.mp hmem with rfl | h2
    · simp [buildDeleteMutations, hbad]
    · rw [buildDeleteMutations]
      cases hd : deserialize_pb_encoded_key_set b with
      | none => rfl
      | some ks => rw [ih h2]

/-- C8: Key-set codec round-trip — for every sequence `S` of key descriptors
`(row, family, qualifier, visibility)`, decoding the bytes produced by
encoding `S` yields a sequence equal to `S`, order-preserving and exact. -/
theorem keyset_codec_round_trip (ks : List PbKey) :
    deserialize_pb_encoded_key_set (encodeKeySet ks) = some ks :=
  deserialize_encodeKeySet ks

/-- C5: Timestamp sharing — for every revision `R` with at least one
component, every mutation in `R.mutations()` (including the one inside the
nested metadata singleton) carries exactly `R.timestamp_ms`. -/
theorem timestamp_sharing (r : Revision) (h : r.components ≠ []) :
    ∀ item ∈ r.mutations, MutItem.tsOk r.timestamp_ms item = true := by
  intro item hmem
  exact revisionLoop_tsOk r.timestamp_ms r.components item hmem

/-- Witness for C5 at a concrete one-component revision. -/
theorem timestamp_sharing_witness :
    (Revision.mk [sampleComponent] 42).components ≠ [] ∧
      ∀ item ∈ (Revision.mk [sampleComponent] 42).mutations,
        MutItem.tsOk (Revision.mk [sampleComponent] 42).timestamp_ms item = true :=
  ⟨by decide, timestamp_sharing (Revision.mk [sampleComponent] 42) (by decide)⟩

/-- C6: for every component of a revision, the metadata mutation built by
`Revision.mutations()` appears in the result and has row `doc_id`, family the
reserved metadata sentinel concatenated with `component_type`, the same
qualifier as the component-body mutation, the component's visibility, the
revision timestamp, and the serialized key-set manifest as value. -/
theorem metadata_mutation_fields (r : Revision) (c : Component)
    (h : c ∈ r.components) :
    MutItem.nested [metadataMutation c r.timestamp_ms] ∈ r.mutations ∧
      (metadataMutation c r.timestamp_ms).row = c.doc_id ∧
      (metadataMutation c r.timestamp_ms).cf =
        metadataComponentPrefixBytes ++ c.component_type ∧
      (metadataMutation c r.timestamp_ms).cq =
        (componentMutation c r.timestamp_ms).cq ∧
      (metadataMutation c r.timestamp_ms).visibility = c.visibility ∧
      (metadataMutation c r.timestamp_ms).timestamp_ms = r.timestamp_ms ∧
      (metadataMutation c r.timestamp_ms).value =
        encodeKeySet (viewKeys c r.timestamp_ms) :=
  ⟨nested_metadata_mem r.timestamp_ms r.components c h, rfl, rfl, rfl, rfl, rfl, rfl⟩

/-- Witness for C6 at a concrete one-component revision. -/
theorem metadata_mutation_fields_witness :
    sampleComponent ∈ (Revision.mk [sampleComponent] 42).components ∧
      (MutItem.nested [metadataMutation sampleComponent 42] ∈
          (Revision.mk [sampleComponent] 42).mutations ∧
        (metadataMutation sampleComponent 42).row = sampleComponent.doc_id ∧
        (metadataMutation sampleComponent 42).cf =
          metadataComponentPrefixBytes ++ sampleComponent.component_type ∧
        (metadataMutation sampleComponent 42).cq =
          (componentMutation sampleComponent 42).cq ∧
        (metadataMutation sampleComponent 42).visibility =
          sampleComponent.visibility ∧
        (metadataMutation sampleComponent 42).timestamp_ms = 42 ∧
        (metadataMutation sampleComponent 42).value =
          encodeKeySet (viewKeys sampleComponent 42)) :=
  ⟨by decide, metadata_mutation_fields (Revision.mk [sampleComponent] 42)
    sampleComponent (by decide)⟩

/-- C3: Manifest completeness — for every component of a revision, with `k`
views, the metadata mutation appears in the result and its value, decoded by
the key-set codec, is exactly the `k` view keys in view order, then the
component-body key, then the metadata key itself: `k + 2` descriptors. -/
theorem manifest_completeness (r : Revision) (c : Component)
    (h : c ∈ r.components) :
    MutItem.nested [metadataMutation c r.timestamp_ms] ∈ r.mutations ∧
      deserialize_pb_encoded_key_set (metadataMutation c r.timestamp_ms).value =
        some (c.views.map specViewKey ++ [specBodyKey c, specMetaKey c]) ∧
      (c.views.map specViewKey ++ [specBodyKey c, specMetaKey c]).length =
        c.views.length + 2 := by
  refine ⟨nested_metadata_mem r.timestamp_ms r.components c h, ?_, by simp⟩
  have hv : (metadataMutation c r.timestamp_ms).value =
      encodeKeySet (viewKeys c r.timestamp_ms) := rfl
  rw [hv, deserialize_encodeKeySet, viewKeys_eq_spec]

/-- Witness for C3 at a concrete one-view component. -/
theorem manifest_completeness_witness :
    sampleComponent ∈ (Revision.mk [sampleComponent] 42).components ∧
      (MutItem.nested [metadataMutation sampleComponent 42] ∈
          (Revision.mk [sampleComponent] 42).mutations ∧
        deserialize_pb_encoded_key_set (metadataMutation sampleComponent 42).value =
          some (sampleComponent.views.map specViewKey ++
            [specBodyKey sampleComponent, specMetaKey sampleComponent]) ∧
        (sampleComponent.views.map specViewKey ++
            [specBodyKey sampleComponent, specMetaKey sampleComponent]).length =
          sampleComponent.views.length + 2) :=
  ⟨by decide, manifest_completeness (Revision.mk [sampleComponent] 42)
    sampleComponent (by decide)⟩

/-- C7: a `RevisionDelete` whose input collection contains an ill-formed
manifest blob aborts the whole `mutations()` call with the
`MalformedManifest` condition: the built delete list never materializes and
no delete mutations are returned for any manifest. -/
theorem malformed_manifest_aborts (rd : RevisionDelete)
    (h : ∃ blob ∈ rd.pb_encoded_key_sets,
      deserialize_pb_encoded_key_set blob = none) :
    buildDeleteMutations rd.timestamp_ms rd.pb_encoded_key_sets = none ∧
      RevisionDelete.mutations rd = none := by
  obtain ⟨blob, hmem, hbad⟩ := h
  have hb := buildDeleteMutations_none rd.timestamp_ms rd.pb_encoded_key_sets
    blob hmem hbad
  exact ⟨hb, by simp [RevisionDelete.mutations, hb]⟩

/-- Witness for C7: one well-formed blob followed by the ill-formed blob
`[5]` (not a tag-10 field). -/
theorem malformed_manifest_aborts_witness :
    (∃ blob ∈ (RevisionDelete.mk [encodeKeySet [sampleKeyA], [5]] 3).pb_encoded_key_sets,
        deserialize_pb_encoded_key_set blob = none) ∧
      buildDeleteMutations 3 [encodeKeySet [sampleKeyA], [5]] = none ∧
        RevisionDelete.mutations (RevisionDelete.mk [encodeKeySet [sampleKeyA], [5]] 3) = none :=
  ⟨by decide, malformed_manifest_aborts
    (RevisionDelete.mk [encodeKeySet [sampleKeyA], [5]] 3) (by decide)⟩

/-- C9: Determinism — constructing the same component arguments, in which
every component and view carries an explicitly supplied qualifier, under two
different random-token generators yields identical `Revision.mutations()`
sequences. -/
theorem mutations_deterministic (ts : Int) (cargs : List ComponentArgs)
    (g1c g2c : Nat → ByteSeq) (g1v g2v : Nat → Nat → ByteSeq)
    (h : ∀ a ∈ cargs, a.explicitQualifiers = true) :
    (Revision.mk (buildComponentList g1c g1v 0 cargs) ts).mutations =
      (Revision.mk (buildComponentList g2c g2v 0 cargs) ts).mutations := by
  rw [buildComponentList_indep cargs h g1c g2c g1v g2v 0 0]

/-- Witness for C9 with two visibly different token generators. -/
theorem mutations_deterministic_witness :
    (∀ a ∈ [sampleComponentArgs], a.explicitQualifiers = true) ∧
      (Revision.mk (buildComponentList (fun _ => [1]) (fun _ _ => [2]) 0
          [sampleComponentArgs]) 7).mutations =
        (Revision.mk (buildComponentList (fun _ => [8]) (fun _ _ => [9]) 0
          [sampleComponentArgs]) 7).mutations :=
  ⟨by decide, mutations_deterministic 7 [sampleComponentArgs]
    (fun _ => [1]) (fun _ => [8]) (fun _ _ => [2]) (fun _ _ => [9]) (by decide)⟩

/-- C10: a component constructed with the views argument `None` has an empty
views collection; a revision over it emits no view mutations — only the body
mutation and the nested metadata singleton — and the metadata manifest
decodes to exactly the component-body key and the metadata key. -/
theorem default_views_empty (doc_id component_type : ByteSeq)
    (q : Option ByteSeq) (visibility content uuid : ByteSeq) (ts : Int)
    (c : Component)
    (hc : c = Component.init doc_id component_type q visibility content none uuid) :
    c.views = [] ∧
      (Revision.mk [c] ts).mutations =
        [MutItem.mut (componentMutation c ts),
         MutItem.nested [metadataMutation c ts]] ∧
      deserialize_pb_encoded_key_set (metadataMutation c ts).value =
        some [specBodyKey c, specMetaKey c] := by
  have hv : c.views = [] := by rw [hc]; rfl
  refine ⟨hv, ?_, ?_⟩
  · simp [Revision.mutations, revisionLoop, viewMutations, hv,
      componentMetadataMutation]
  · have hval : (metadataMutation c ts).value = encodeKeySet (viewKeys c ts) := rfl
    rw [hval, deserialize_encodeKeySet, viewKeys_eq_spec, hv]
    rfl

/-- Witness for C10 at concrete constructor arguments. -/
theorem default_views_empty_witness :
    (Component.init [100] [116] (some [113]) [118] [99] none [117]).views = [] ∧
      (Revision.mk [Component.init [100] [116] (some [113]) [118] [99] none [117]] 11).mutations =
        [MutItem.mut (componentMutation
            (Component.init [100] [116] (some [113]) [118] [99] none [117]) 11),
         MutItem.nested [metadataMutation
            (Component.init [100] [116] (some [113]) [118] [99] none [117]) 11]] ∧
      deserialize_pb_encoded_key_set (metadataMutation
          (Component.init [100] [116] (some [113]) [118] [99] none [117]) 11).value =
        some [specBodyKey (Component.init [100] [116] (some [113]) [118] [99] none [117]),
          specMetaKey (Component.init [100] [116] (some [113]) [118] [99] none [117])] :=
  default_views_empty [100] [116] (some [113]) [118] [99] [117] 11
    (Component.init [100] [116] (some [113]) [118] [99] none [117]) rfl

/-- C4 (refuted as stated): the claim says `Revision.mutations()` is a flat
sequence ending, per component, in its metadata mutation with no nesting;
the source instead appends the one-element list
`component_metadata_mutation` itself, so the last element per component is a
nested singleton list, not the metadata mutation.  Evaluated at a concrete
no-view component. -/
theorem mutations_nest_metadata :
    (Revision.mk [sampleComponentNoViews] 5).mutations =
      [MutItem.mut (componentMutation sampleComponentNoViews 5),
       MutItem.nested [metadataMutation sampleComponentNoViews 5]] ∧
      (Revision.mk [sampleComponentNoViews] 5).mutations ≠
        (specComponentSequence sampleComponentNoViews 5).map MutItem.mut := by
  exact ⟨by decide, by decide⟩

/-- C2 (refuted as stated): `RevisionDelete.mutations()` does build, in input
order and decode order, one delete marker per key descriptor with the delete
timestamp and delete flag — but the method body has no `return` statement, so
the call returns Python `None`, not that sequence.  Evaluated at two
well-formed manifests. -/
theorem revision_delete_returns_none :
    buildDeleteMutations 9
        [encodeKeySet [sampleKeyA], encodeKeySet [sampleKeyB, sampleKeyC]] =
      some [Mutation.mk [1] [2] [3] [4] 9 [] true,
        Mutation.mk [5] [6] [7] [8] 9 [] true,
        Mutation.mk [9] [10] [11] [12] 9 [] true] ∧
      RevisionDelete.mutations (RevisionDelete.mk
        [encodeKeySet [sampleKeyA], encodeKeySet [sampleKeyB, sampleKeyC]] 9) =
        some none := by
  exact ⟨by decide, by decide⟩

/-- C1 (refuted as stated): the delete markers built internally from a
component's stored manifest have exactly the originating revision's written
key set (view keys, component-body key, metadata key) — but because
`RevisionDelete.mutations()` has no `return` statement the call returns
Python `None` and produces no delete markers at all.  Evaluated on the
manifest stored by a concrete one-view component. -/
theorem delete_symmetry_broken :
    (buildDeleteMutations 77 [(metadataMutation sampleComponent 42).value]).map
        (fun ms => ms.map mutationKey) =
      some (writtenKeys sampleComponent 42) ∧
      RevisionDelete.mutations
        (RevisionDelete.mk [(metadataMutation sampleComponent 42).value] 77) =
        some none := by
  exact ⟨by decide, by decide⟩
